import Mathlib

/-
Verification of the extension lifecycle manager of pact-cli
(src/cli/extension.rs and the command routing in src/bin.rs),
as a shallow embedding in Lean 4.

Conventions of the embedding:
* machine state is explicit: the filesystem is a pair of path lists
  (files, dirs); the persisted registry (a Rust HashMap behind
  serde_json) is an association list with key-based lookup, replace
  and erase, matching HashMap semantics on duplicate-free keys;
* fallible Rust code returns Except String;
* network I/O and subprocess execution are oracles passed in as
  explicit arguments; install operations additionally report the
  list of side-effect events they performed, in order.
-/

namespace PactCli

/-- Extension kind, from enum ExtensionType in src/cli/extension.rs. -/
inductive ExtensionType
  | PactflowAi
  | PactRubyStandalone
  | External
deriving DecidableEq, Repr

/-- One registry record, from struct ExtensionConfig in src/cli/extension.rs. -/
structure ExtensionConfig where
  name : String
  version : String
  binary_path : String
  extension_type : ExtensionType
  installed : Bool
deriving DecidableEq, Repr

/-- The persisted registry: HashMap String ExtensionConfig, embedded as an
association list with key-based operations. -/
abbrev Registry := List (String × ExtensionConfig)

/-- HashMap::get. -/
def Registry.find? (cfg : Registry) (k : String) : Option ExtensionConfig :=
  match cfg with
  | [] => none
  | (n, c) :: rest => if n = k then some c else Registry.find? rest k

/-- HashMap::insert — replaces the record under an existing key. -/
def Registry.insert (cfg : Registry) (k : String) (v : ExtensionConfig) : Registry :=
  match cfg with
  | [] => [(k, v)]
  | (n, c) :: rest => if n = k then (k, v) :: rest else (n, c) :: Registry.insert rest k v

/-- HashMap::remove. -/
def Registry.eraseKey (cfg : Registry) (k : String) : Registry :=
  cfg.filter (fun p => p.1 ≠ k)

/-- HashMap::contains_key. -/
def Registry.containsKey (cfg : Registry) (k : String) : Bool :=
  (Registry.find? cfg k).isSome

/-- Number of records stored under a key (a real HashMap always has 0 or 1). -/
def Registry.countKey (cfg : Registry) (k : String) : Nat :=
  (cfg.filter (fun p => p.1 = k)).length

/-- Filesystem state: the set of existing regular files and directories. -/
structure FS where
  files : List String
  dirs : List String
deriving DecidableEq, Repr

/-- Path::exists. -/
def FS.pathExists (fs : FS) (p : String) : Bool :=
  fs.files.contains p || fs.dirs.contains p

/-- Record a regular file as present (used for File::create + write_all,
symlink and fs::copy targets). -/
def FS.addFile (fs : FS) (p : String) : FS :=
  { fs with files := if fs.files.contains p then fs.files else p :: fs.files }

/-- fs::create_dir_all (parent creation is irrelevant to the claims). -/
def FS.create_dir_all (fs : FS) (p : String) : FS :=
  { fs with dirs := if fs.dirs.contains p then fs.dirs else p :: fs.dirs }

/-- fs::remove_file — fails when the path is not an existing regular file
(e.g. it is a directory). -/
def FS.removeFile (fs : FS) (p : String) : Except String FS :=
  if fs.files.contains p then
    .ok { fs with files := fs.files.filter (fun q => q ≠ p) }
  else
    .error "remove_file failed"

/-- Whether q lies strictly below directory d. -/
def underDir (d q : String) : Bool :=
  (d ++ "/").isPrefixOf q

/-- fs::remove_dir_all — removes the directory and everything below it;
fails when the path is not an existing directory. -/
def FS.remove_dir_all (fs : FS) (p : String) : Except String FS :=
  if fs.dirs.contains p then
    .ok { files := fs.files.filter (fun q => ¬ underDir p q),
          dirs := fs.dirs.filter (fun q => ¬ (q = p ∨ underDir p q)) }
  else
    .error "remove_dir_all failed"

/-- std::os::unix::fs::symlink — fails when the target already exists. -/
def FS.symlink (fs : FS) (_source target : String) : Except String FS :=
  if fs.pathExists target then .error "symlink target exists"
  else .ok (fs.addFile target)

/-- fs::copy — overwrites a regular-file target, fails on a directory target. -/
def FS.copyFile (fs : FS) (_source target : String) : Except String FS :=
  if fs.dirs.contains target then .error "copy target is a directory"
  else .ok (fs.addFile target)

/-- struct PlatformInfo in src/cli/extension.rs. -/
structure PlatformInfo where
  os : String
  arch : String
deriving DecidableEq, Repr

/-- The supported-platform matrix from PlatformInfo::is_supported. -/
def supported_platforms : List (String × String) :=
  [("darwin", "aarch64"),
   ("darwin", "x86_64"),
   ("windows", "aarch64"),
   ("windows", "x86_64"),
   ("linux", "aarch64"),
   ("linux", "x86_64")]

/-- PlatformInfo::is_supported. -/
def PlatformInfo.is_supported (p : PlatformInfo) : Bool :=
  supported_platforms.contains (p.os, p.arch)

/-- The target-triple match shared verbatim by get_pactflow_ai_url and
get_pactflow_ai_download_url. -/
def PlatformInfo.pactflow_ai_target (p : PlatformInfo) : String :=
  match (p.os, p.arch) with
  | ("darwin", "aarch64") => "aarch64-apple-darwin"
  | ("darwin", "x86_64") => "x86_64-apple-darwin"
  | ("windows", "aarch64") => "aarch64-pc-windows-msvc"
  | ("windows", "x86_64") => "x86_64-pc-windows-msvc"
  | ("linux", "aarch64") => "aarch64-unknown-linux-gnu"
  | ("linux", "x86_64") => "x86_64-unknown-linux-gnu"
  | _ => "x86_64-unknown-linux-gnu"

/-- PlatformInfo::get_pactflow_ai_url. -/
def PlatformInfo.get_pactflow_ai_url (p : PlatformInfo) : String :=
  "https://download.pactflow.io/ai/dist/" ++ p.pactflow_ai_target ++ "/latest"

/-- PlatformInfo::get_pactflow_ai_download_url. -/
def PlatformInfo.get_pactflow_ai_download_url (p : PlatformInfo) (version : String) : String :=
  "https://download.pactflow.io/ai/dist/" ++ p.pactflow_ai_target ++ "/" ++ version ++ "/pactflow-ai"

/-- PlatformInfo::get_ruby_standalone_target. -/
def PlatformInfo.get_ruby_standalone_target (p : PlatformInfo) : String :=
  match (p.os, p.arch) with
  | ("darwin", "aarch64") => "osx-arm64"
  | ("darwin", "x86_64") => "osx-x86_64"
  | ("windows", "aarch64") => "windows-x86_64"
  | ("windows", "x86_64") => "windows-x86_64"
  | ("linux", "aarch64") => "linux-arm64"
  | ("linux", "x86_64") => "linux-x86_64"
  | _ => "linux-x86_64"

/-- PlatformInfo::get_executable_extension. -/
def PlatformInfo.get_executable_extension (p : PlatformInfo) : String :=
  if p.os = "windows" then ".exe" else ""

/-- PlatformInfo::get_archive_extension. -/
def PlatformInfo.get_archive_extension (p : PlatformInfo) : String :=
  if p.os = "windows" then "zip" else "tar.gz"

/-- struct ExtensionManager (extensions_home plus the detected platform). -/
structure ExtensionManager where
  extensions_home : String
  platform : PlatformInfo
deriving DecidableEq, Repr

/-- ExtensionManager::get_extension_config_path. -/
def ExtensionManager.get_extension_config_path (em : ExtensionManager) : String :=
  em.extensions_home ++ "/config.json"

/-- A concrete manager on linux-x86_64 with home /h, used as test input. -/
def em0 : ExtensionManager := ⟨"/h", ⟨"linux", "x86_64"⟩⟩

/-! ## Registry persistence: load_config and save_config -/

/-- A filesystem view that tracks file contents, for the claims about
reading and writing the persisted registry document. -/
abbrev FileMap := List (String × String)

/-- Content of a file, none when the file is absent. -/
def FileMap.getFile (m : FileMap) (p : String) : Option String :=
  m.lookup p

/-- Set the content of a file, creating it when absent. -/
def FileMap.setFile (m : FileMap) (p c : String) : FileMap :=
  match m with
  | [] => [(p, c)]
  | (q, d) :: rest => if q = p then (p, c) :: rest else (q, d) :: FileMap.setFile rest p c

/-- ExtensionManager::load_config.  read_result is the outcome of
fs::read_to_string on the config path (none: missing or unreadable);
parse stands for serde_json::from_str, none meaning a parse failure,
and unwrap_or_default yields the empty map on that failure. -/
def load_config (read_result : Option String) (parse : String → Option Registry) : Registry :=
  match read_result with
  | some content => (parse content).getD []
  | none => []

/-- Stand-in for serde_json::to_string_pretty on the registry: the claims
about save_config depend only on the serialised document being handed to
fs::write as one string, not on its exact shape. -/
def serializeRegistry (cfg : Registry) : String :=
  "\x7b" ++ String.intercalate "," (cfg.map (fun p => "\"" ++ p.1 ++ "\"")) ++ "\x7d"

/-- fs::write — File::create truncates the target in place, then write_all
appends the content.  failAt = some k models the write being interrupted
after k characters; the Bool reports success. -/
def fsWrite (m : FileMap) (path content : String) (failAt : Option Nat) : FileMap × Bool :=
  match failAt with
  | none => (FileMap.setFile m path content, true)
  | some k => (FileMap.setFile m path (content.take k), false)

/-- ExtensionManager::save_config — a single fs::write of the serialised
document directly to the config path (no temporary file, no rename). -/
def save_config (em : ExtensionManager) (m : FileMap) (cfg : Registry) (failAt : Option Nat) :
    FileMap × Bool :=
  fsWrite m (em.get_extension_config_path) (serializeRegistry cfg) failAt

/-! ## Version resolution (src/cli/extension.rs lines 339-370) -/

/-- Minimal JSON value, for the releases-metadata response body. -/
inductive Json
  | null
  | str (s : String)
  | obj (fields : List (String × Json))

/-- serde_json::Value indexing — Null for a missing key or non-object. -/
def Json.index (j : Json) (key : String) : Json :=
  match j with
  | .obj fields =>
    match fields.lookup key with
    | some v => v
    | none => .null
  | _ => .null

/-- serde_json::Value::as_str. -/
def Json.as_str : Json → Option String
  | .str s => some s
  | _ => none

/-- An HTTP response as the version resolvers see it: its status, its body
text, and the body parsed as JSON (none when not parseable). -/
structure VersionResponse where
  success : Bool
  text : String
  json : Option Json

/-- ExtensionManager::get_latest_ruby_standalone_version.  resp is the
outcome of the GET request (error: the request itself failed).  The code
parses the body as JSON and extracts tag_name; it never looks at the
response status. -/
def get_latest_ruby_standalone_version (resp : Except String VersionResponse) :
    Except String String :=
  match resp with
  | .error e => .error e
  | .ok response =>
    match response.json with
    | none => .error "error decoding response body"
    | some release =>
      match (release.index "tag_name").as_str with
      | some tag_name => .ok tag_name
      | none => .error "No tag_name found in release"

/-- ExtensionManager::get_latest_pactflow_ai_version.  The code returns the
trimmed body of whatever response arrives; it checks neither the status
nor the shape of the body. -/
def get_latest_pactflow_ai_version (resp : Except String VersionResponse) :
    Except String String :=
  match resp with
  | .error e => .error e
  | .ok response => .ok response.text.trim

/-! ## Listing (src/cli/extension.rs lines 166-204) -/

/-- The builtin extension table from ExtensionManager::list_extensions. -/
def builtin_extensions : List (String × ExtensionType) :=
  [("pactflow-ai", .PactflowAi),
   ("pact-broker-legacy", .PactRubyStandalone),
   ("pactflow-legacy", .PactRubyStandalone),
   ("message-legacy", .PactRubyStandalone),
   ("mock-legacy", .PactRubyStandalone),
   ("verifier-legacy", .PactRubyStandalone),
   ("stub-legacy", .PactRubyStandalone)]

/-- The conventional per-tool binary path used by list_extensions and by the
legacy bundle bridge: extensions_home/bin/name plus the executable suffix. -/
def convPath (em : ExtensionManager) (name : String) : String :=
  em.extensions_home ++ "/bin/" ++ name ++ em.platform.get_executable_extension

/-- One iteration of the builtin-merging loop in list_extensions. -/
def listStep (em : ExtensionManager) (fs : FS) (config : Registry)
    (nt : String × ExtensionType) : Registry :=
  if Registry.containsKey config nt.1 then config
  else
    Registry.insert config nt.1
      ⟨nt.1, "latest", convPath em nt.1, nt.2, fs.pathExists (convPath em nt.1)⟩

/-- ExtensionManager::list_extensions — the loaded registry (cfg) merged
with synthesized builtin records for the names not already present, each
with installed recomputed from a filesystem existence check. -/
def list_extensions (em : ExtensionManager) (fs : FS) (cfg : Registry) : Registry :=
  builtin_extensions.foldl (listStep em fs) cfg

/-! ## Invocation (src/cli/extension.rs lines 507-534) -/

/-- Result of ExtensionManager::run_extension: a relayed exit status, or a
lifecycle error message. -/
inductive RunOutcome
  | exitStatus (code : Int)
  | err (msg : String)
deriving DecidableEq, Repr

/-- ExtensionManager::run_extension.  cfg is the loaded registry and exec
the process-launch oracle (binary, argument vector ↦ exit status, or the
OS error when the process could not be launched at all). -/
def run_extension (cfg : Registry) (exec : String → List String → Except String Int)
    (extension_name : String) (args : List String) : RunOutcome :=
  match Registry.find? cfg extension_name with
  | some ext_config =>
    if !ext_config.installed then
      .err ("Extension \x27" ++ extension_name ++ "\x27 is not installed. Run \x27pact extension install "
            ++ extension_name ++ "\x27 first.")
    else
      match exec ext_config.binary_path args with
      | .ok status => .exitStatus status
      | .error e => .err e
  | none =>
    match exec ("pact-" ++ extension_name) args with
    | .ok status => .exitStatus status
    | .error _ =>
      .err ("Extension \x27" ++ extension_name
            ++ "\x27 not found. Available extensions can be listed with \x27pact extension list\x27.")

/-! ## Legacy bundle bridge (src/cli/extension.rs lines 427-505) -/

/-- The static source → alias table from create_legacy_symlinks_with_version. -/
def legacy_mappings : List (String × String) :=
  [("pact-broker", "pact-broker-legacy"),
   ("pactflow", "pactflow-legacy"),
   ("pact-message", "message-legacy"),
   ("pact-mock-service", "mock-legacy"),
   ("pact-provider-verifier", "verifier-legacy"),
   ("pact-stub-service", "stub-legacy")]

/-- The per-mapping alias creation, taken when the source binary exists:
on windows fs::copy, elsewhere remove any prior alias then symlink. -/
def aliasStep (em : ExtensionManager) (fs : FS) (source_path target_path : String) :
    Except String FS :=
  if em.platform.os = "windows" then
    fs.copyFile source_path target_path
  else do
    let fs ← if fs.pathExists target_path then fs.removeFile target_path else pure fs
    fs.symlink source_path target_path

/-- ExtensionManager::create_legacy_symlinks_with_version.  cfg stands for
the registry loaded by the embedded load_config call; the returned registry
is what the final save_config persists. -/
def create_legacy_symlinks_with_version (em : ExtensionManager) (version : String)
    (fs : FS) (cfg : Registry) : Except String (FS × Registry) := do
  let bin_dir := em.extensions_home ++ "/bin"
  let fs := fs.create_dir_all bin_dir
  let ruby_bin_dir := em.extensions_home ++ "/pact-legacy/bin"
  let exe_ext := em.platform.get_executable_extension
  let fs ← legacy_mappings.foldlM
    (fun fs (m : String × String) => do
      let source_path := ruby_bin_dir ++ "/" ++ m.1 ++ exe_ext
      let target_path := bin_dir ++ "/" ++ m.2 ++ exe_ext
      if fs.pathExists source_path then aliasStep em fs source_path target_path
      else pure fs)
    fs
  let ruby_dir := em.extensions_home ++ "/pact-legacy"
  let cfg := Registry.insert cfg "pact-legacy"
    ⟨"pact-legacy", version, ruby_dir, .PactRubyStandalone, fs.pathExists ruby_dir⟩
  let cfg := legacy_mappings.foldl
    (fun cfg (m : String × String) =>
      let binary_path := bin_dir ++ "/" ++ m.2 ++ exe_ext
      Registry.insert cfg m.2
        ⟨m.2, version, binary_path, .PactRubyStandalone, fs.pathExists binary_path⟩)
    cfg
  pure (fs, cfg)

/-! ## Install operations (src/cli/extension.rs lines 206-337) -/

/-- A side effect performed by an install operation, in order. -/
inductive Event
  | net (url : String)
  | fsw (path : String)
deriving DecidableEq, Repr

/-- A download response: reqwest status success flag and body. -/
structure HttpResponse where
  success : Bool
  body : String
deriving DecidableEq, Repr

/-- The network and archive oracle for the install operations. -/
structure NetEnv where
  latest_ai : Except String String
  latest_ruby : Except String String
  fetch : String → Except String HttpResponse
  extract_ok : Bool
  archive_entries : List String

/-- ExtensionManager::install_pactflow_ai, with the events it performs. -/
def install_pactflow_ai (em : ExtensionManager) (env : NetEnv) (version? : Option String)
    (fs : FS) (cfg : Registry) : Except String (FS × Registry) × List Event :=
  if !em.platform.is_supported then
    (.error ("Unsupported platform: " ++ em.platform.os ++ "-" ++ em.platform.arch), [])
  else
    let fs := fs.create_dir_all em.extensions_home
    let ev := [Event.fsw em.extensions_home]
    let vres : Except String String × List Event :=
      match version? with
      | some v => (.ok v, ev)
      | none => (env.latest_ai, ev ++ [Event.net em.platform.get_pactflow_ai_url])
    match vres with
    | (.error e, ev) => (.error e, ev)
    | (.ok version, ev) =>
      let url := em.platform.get_pactflow_ai_download_url version
      let ev := ev ++ [Event.net url]
      match env.fetch url with
      | .error e => (.error e, ev)
      | .ok response =>
        if !response.success then
          (.error "Failed to download pactflow-ai: HTTP status", ev)
        else
          let bin_dir := em.extensions_home ++ "/bin"
          let fs := fs.create_dir_all bin_dir
          let binary_path := bin_dir ++ "/pactflow-ai" ++ em.platform.get_executable_extension
          let fs := fs.addFile binary_path
          let ev := ev ++ [Event.fsw binary_path]
          let cfg := Registry.insert cfg "pactflow-ai"
            ⟨"pactflow-ai", version, binary_path, .PactflowAi, true⟩
          let ev := ev ++ [Event.fsw em.get_extension_config_path]
          (.ok (fs, cfg), ev)

/-- ExtensionManager::extract_ruby_archive — creates the extraction
directory and materialises the archive entries below it (entries are
relative paths such as bin/pact-broker); fails when the platform
extraction utility reports failure. -/
def extract_ruby_archive (em : ExtensionManager) (env : NetEnv) (fs : FS) :
    Except String FS :=
  let extract_dir := em.extensions_home ++ "/pact-legacy"
  let fs := fs.create_dir_all extract_dir
  if !env.extract_ok then
    .error (if em.platform.os = "windows" then "Failed to extract Windows archive"
            else "Failed to extract tar archive")
  else
    .ok (env.archive_entries.foldl (fun fs e => fs.addFile (extract_dir ++ "/" ++ e))
          { fs with dirs :=
              if fs.dirs.contains (extract_dir ++ "/bin") then fs.dirs
              else (extract_dir ++ "/bin") :: fs.dirs })

/-- ExtensionManager::install_ruby_legacy, with the events it performs. -/
def install_ruby_legacy (em : ExtensionManager) (env : NetEnv) (version? : Option String)
    (fs : FS) (cfg : Registry) : Except String (FS × Registry) × List Event :=
  if !em.platform.is_supported then
    (.error ("Unsupported platform: " ++ em.platform.os ++ "-" ++ em.platform.arch), [])
  else
    let fs := fs.create_dir_all em.extensions_home
    let ev := [Event.fsw em.extensions_home]
    let vres : Except String String × List Event :=
      match version? with
      | some v => (.ok v, ev)
      | none =>
        (env.latest_ruby,
         ev ++ [Event.net "https://api.github.com/repos/pact-foundation/pact-standalone/releases/latest"])
    match vres with
    | (.error e, ev) => (.error e, ev)
    | (.ok version, ev) =>
      let target := em.platform.get_ruby_standalone_target
      let archive_ext := em.platform.get_archive_extension
      let url := "https://github.com/pact-foundation/pact-standalone/releases/download/"
        ++ version ++ "/pact-" ++ version.dropWhile (fun c => c == 'v') ++ "-" ++ target
        ++ "." ++ archive_ext
      let ev := ev ++ [Event.net url]
      match env.fetch url with
      | .error e => (.error e, ev)
      | .ok response =>
        if !response.success then
          (.error "Failed to download pact-legacy: HTTP status", ev)
        else
          let archive_path := em.extensions_home ++ "/pact-legacy." ++ archive_ext
          let fs := fs.addFile archive_path
          let ev := ev ++ [Event.fsw archive_path]
          match extract_ruby_archive em env fs with
          | .error e => (.error e, ev)
          | .ok fs =>
            match create_legacy_symlinks_with_version em version fs cfg with
            | .error e => (.error e, ev)
            | .ok (fs, cfg) =>
              let ev := ev ++ [Event.fsw em.get_extension_config_path]
              match fs.removeFile archive_path with
              | .error e => (.error e, ev)
              | .ok fs => (.ok (fs, cfg), ev)

/-! ## Uninstall (src/cli/extension.rs lines 536-602) -/

/-- One iteration of the legacy-tool removal loop in uninstall_extension:
remove the recorded binary when it exists on disk, then drop the record. -/
def removeToolsStep (st : FS × Registry) (tool : String) : Except String (FS × Registry) := do
  let fs ← match Registry.find? st.2 tool with
    | some tool_config =>
      if st.1.pathExists tool_config.binary_path then st.1.removeFile tool_config.binary_path
      else pure st.1
    | none => pure st.1
  pure (fs, Registry.eraseKey st.2 tool)

/-- The legacy_tools collection in uninstall_extension: the names of all
bundled-legacy records other than the master. -/
def legacyToolNames (cfg : Registry) : List String :=
  (cfg.filter
    (fun p => p.2.extension_type == ExtensionType.PactRubyStandalone
      && p.1 != "pact-legacy")).map Prod.fst

/-- ExtensionManager::uninstall_extension.  The returned Nat counts the
save_config calls performed. -/
def uninstall_extension (em : ExtensionManager) (fs : FS) (cfg : Registry)
    (extension_name : String) : Except String (FS × Registry × Nat) :=
  if extension_name = "pact-legacy" then do
    let legacy_tools := legacyToolNames cfg
    let st ← legacy_tools.foldlM removeToolsStep (fs, cfg)
    let ruby_dir := em.extensions_home ++ "/pact-legacy"
    let fs ← if st.1.pathExists ruby_dir then st.1.remove_dir_all ruby_dir else pure st.1
    pure (fs, Registry.eraseKey st.2 "pact-legacy", 1)
  else
    match Registry.find? cfg extension_name with
    | some ext_config => do
      let fs ←
        if fs.pathExists ext_config.binary_path then
          if ext_config.binary_path.endsWith "/pact-legacy" then
            fs.remove_dir_all ext_config.binary_path
          else
            fs.removeFile ext_config.binary_path
        else pure fs
      pure (fs, Registry.eraseKey cfg extension_name, 1)
    | none => .error ("Extension \x27" ++ extension_name ++ "\x27 is not installed.")

/-! ## Command routing (src/bin.rs lines 157-204 and 253-279) -/

/-- str::starts_with, on the character level. -/
def strStartsWith (s pre : String) : Bool :=
  pre.data.isPrefixOf s.data

/-- Character-level drop, modelling str::strip_prefix for an ASCII lead. -/
def strDropChars (s : String) (n : Nat) : String :=
  ⟨s.data.drop n⟩

/-- get_pactflow_extensions — installed entries of list_extensions whose
name starts with pactflow-, with that lead stripped. -/
def get_pactflow_extensions (em : ExtensionManager) (fs : FS) (cfg : Registry) : List String :=
  (list_extensions em fs cfg).filterMap
    (fun p =>
      if p.2.installed && strStartsWith p.1 "pactflow-" then
        some (if strStartsWith p.1 "pactflow-" then strDropChars p.1 9 else p.1)
      else none)

/-- is_pactflow_extension. -/
def is_pactflow_extension (em : ExtensionManager) (fs : FS) (cfg : Registry)
    (command : String) : Bool :=
  (get_pactflow_extensions em fs cfg).contains command

/-- What the command router in src/bin.rs does with a token. -/
inductive RouteOutcome
  | relayExit (code : Int)
  | topLevelHelp
  | extensionError (msg : String)
  | regularPactflow
deriving DecidableEq, Repr

/-- The top-level external-subcommand arm (src/bin.rs lines 253-279): the
token is handed to run_external_extension; on an error the top-level help
is printed and the exit code is 1. -/
def route_external (cfg : Registry) (exec : String → List String → Except String Int)
    (external_cmd : String) (args : List String) : RouteOutcome :=
  match run_extension cfg exec external_cmd args with
  | .exitStatus code => .relayExit code
  | .err _ => .topLevelHelp

/-- The pactflow arm (src/bin.rs lines 157-204): a nested token outside the
known pactflow command set is routed to run_pactflow_extension exactly when
is_pactflow_extension accepts it; a failed invocation prints an extension
error and exits 1; otherwise the regular pactflow handler runs. -/
def route_pactflow (em : ExtensionManager) (fs : FS) (cfg : Registry)
    (exec : String → List String → Except String Int) (known_commands : List String)
    (potential_extension : String) (args : List String) : RouteOutcome :=
  if known_commands.contains potential_extension then .regularPactflow
  else if is_pactflow_extension em fs cfg potential_extension then
    match run_extension cfg exec ("pactflow-" ++ potential_extension) args with
    | .exitStatus code => .relayExit code
    | .err e => .extensionError e
  else .regularPactflow

/-! ## Shared helper lemmas and concrete test fixtures -/

/-- Whether an Except value is a success. -/
def exceptIsOk (x : Except String (FS × Registry)) : Bool :=
  match x with
  | .ok _ => true
  | .error _ => false

/-- Registry component of a successful result (empty on error). -/
def resultCfg (x : Except String (FS × Registry)) : Registry :=
  match x with
  | .ok r => r.2
  | .error _ => []

/-- Setting a file makes its content readable back. -/
theorem FileMap.getFile_setFile (m : FileMap) (p c : String) :
    FileMap.getFile (FileMap.setFile m p c) p = some c := by
  induction m with
  | nil => simp [FileMap.setFile, FileMap.getFile, List.lookup]
  | cons hd tl ih =>
    obtain ⟨q, d⟩ := hd
    by_cases h : q = p
    · simp [FileMap.setFile, FileMap.getFile, List.lookup, h]
    · have h2 : (p == q) = false := beq_eq_false_iff_ne.mpr (fun hh => h hh.symm)
      simpa [FileMap.setFile, FileMap.getFile, List.lookup, h, h2] using ih

/-- A concrete network oracle for witnesses. -/
def envW : NetEnv :=
  ⟨.ok "1.0.0", .ok "v2.0.0", fun _ => .ok ⟨true, "BIN"⟩, true,
   ["bin/pact-broker", "bin/pactflow"]⟩

/-! ## Claim C10 -/

/-- C10: the bundled-legacy artifact target for (windows, aarch64) — a
member of the supported matrix — is the same string "windows-x86_64" as for
(windows, x86_64), while the single-binary family resolves the two pairs to
distinct download URLs. -/
theorem c10_windows_arm_ruby_target_collision :
    PlatformInfo.get_ruby_standalone_target ⟨"windows", "aarch64"⟩ = "windows-x86_64" ∧
    PlatformInfo.get_ruby_standalone_target ⟨"windows", "aarch64"⟩ =
      PlatformInfo.get_ruby_standalone_target ⟨"windows", "x86_64"⟩ ∧
    PlatformInfo.is_supported ⟨"windows", "aarch64"⟩ = true ∧
    PlatformInfo.is_supported ⟨"windows", "x86_64"⟩ = true ∧
    PlatformInfo.get_pactflow_ai_download_url ⟨"windows", "aarch64"⟩ "1.0.0" ≠
      PlatformInfo.get_pactflow_ai_download_url ⟨"windows", "x86_64"⟩ "1.0.0" := by
  refine ⟨rfl, rfl, rfl, rfl, ?_⟩
  decide

/-! ## Claim C7 -/

/-- C7: loading the registry yields the empty registry when the persisted
file is missing or unreadable (read_result = none) or when its content does
not parse, and yields exactly the parsed mapping when it does parse. -/
theorem c7_load_config_best_effort (parse : String → Option Registry) :
    load_config none parse = [] ∧
    (∀ content, parse content = none → load_config (some content) parse = []) ∧
    (∀ content reg, parse content = some reg → load_config (some content) parse = reg) := by
  refine ⟨rfl, ?_, ?_⟩
  · intro content h
    simp [load_config, h]
  · intro content reg h
    simp [load_config, h]

/-- A concrete parse stand-in for the C7 witness. -/
def parse7 : String → Option Registry :=
  fun s => if s = "good" then some [("a", ⟨"a", "1", "/p", .External, true⟩)] else none

/-- Witness for C7 at a concrete parse function and concrete contents. -/
theorem c7_load_config_best_effort_witness :
    load_config none parse7 = [] ∧
    load_config (some "bad") parse7 = [] ∧
    load_config (some "good") parse7 = [("a", ⟨"a", "1", "/p", ExtensionType.External, true⟩)] := by
  have h := c7_load_config_best_effort parse7
  exact ⟨h.1, h.2.1 "bad" (by decide), h.2.2 "good" _ (by decide)⟩

/-! ## Claim C2 -/

/-- A previously persisted registry file with nonempty content. -/
def c2prior : FileMap := [("/h/config.json", "OLDDATA")]

/-- C2 counterexample: a save of the empty registry that fails at write
offset 0 leaves the previously persisted file replaced by a zero-byte
file — the prior content is not left intact. -/
theorem c2_save_not_atomic_counterexample :
    (save_config em0 c2prior [] (some 0)).2 = false ∧
    FileMap.getFile (save_config em0 c2prior [] (some 0)).1 "/h/config.json" = some "" ∧
    FileMap.getFile c2prior "/h/config.json" = some "OLDDATA" := by
  exact ⟨rfl, rfl, rfl⟩

/-- C2 amended: a successful save leaves the file holding the full
serialised document, while a save interrupted after k characters leaves the
file holding that k-character prefix of the new document (the write goes
directly to the config path with no atomic rename, so the prior content is
destroyed first). -/
theorem c2_save_truncates_in_place (em : ExtensionManager) (m : FileMap) (cfg : Registry) :
    ((save_config em m cfg none).2 = true ∧
      FileMap.getFile (save_config em m cfg none).1 em.get_extension_config_path
        = some (serializeRegistry cfg)) ∧
    (∀ k, (save_config em m cfg (some k)).2 = false ∧
      FileMap.getFile (save_config em m cfg (some k)).1 em.get_extension_config_path
        = some ((serializeRegistry cfg).take k)) := by
  exact ⟨⟨rfl, FileMap.getFile_setFile ..⟩, fun k => ⟨rfl, FileMap.getFile_setFile ..⟩⟩

/-! ## Claim C6 -/

/-- A non-success response that still carries a plausible body. -/
def c6resp : VersionResponse :=
  ⟨false, "1.2.3", some (.obj [("tag_name", .str "v9.9.9")])⟩

/-- Whether a version-resolution result is a success. -/
def exceptIsOkStr (x : Except String String) : Bool :=
  match x with
  | .ok _ => true
  | .error _ => false

/-- C6 counterexample: on a response whose status is not success, both
resolvers return a version string derived from that response instead of an
error — the single-binary resolver returns the trimmed body, and the
bundled-legacy resolver returns the tag_name field. -/
theorem c6_status_unchecked_counterexample :
    c6resp.success = false ∧
    get_latest_pactflow_ai_version (.ok c6resp) = .ok ("1.2.3".trim) ∧
    exceptIsOkStr (get_latest_pactflow_ai_version (.ok c6resp)) = true ∧
    get_latest_ruby_standalone_version (.ok c6resp) = .ok "v9.9.9" := by
  exact ⟨rfl, rfl, rfl, rfl⟩

/-- C6 amended: both resolvers propagate a failure of the request itself as
an error, and the bundled-legacy resolver errors when the body is not JSON
or lacks a string tag_name; but neither inspects the response status — the
single-binary resolver returns the trimmed body of every response, and the
bundled-legacy resolver returns tag_name whenever present, success or not. -/
theorem c6_resolver_error_behaviour :
    (∀ e, get_latest_pactflow_ai_version (.error e) = .error e) ∧
    (∀ e, get_latest_ruby_standalone_version (.error e) = .error e) ∧
    (∀ r : VersionResponse, r.json = none →
      get_latest_ruby_standalone_version (.ok r) = .error "error decoding response body") ∧
    (∀ (r : VersionResponse) (j : Json), r.json = some j →
      (j.index "tag_name").as_str = none →
      get_latest_ruby_standalone_version (.ok r) = .error "No tag_name found in release") ∧
    (∀ r : VersionResponse, get_latest_pactflow_ai_version (.ok r) = .ok r.text.trim) ∧
    (∀ (r : VersionResponse) (j : Json) (t : String), r.json = some j →
      (j.index "tag_name").as_str = some t →
      get_latest_ruby_standalone_version (.ok r) = .ok t) := by
  refine ⟨fun e => rfl, fun e => rfl, ?_, ?_, fun r => rfl, ?_⟩
  · intro r h
    simp [get_latest_ruby_standalone_version, h]
  · intro r j hj ht
    simp [get_latest_ruby_standalone_version, hj, ht]
  · intro r j t hj ht
    simp [get_latest_ruby_standalone_version, hj, ht]

/-- Witness for C6 amended at concrete responses. -/
theorem c6_resolver_error_behaviour_witness :
    get_latest_pactflow_ai_version (.error "timeout") = .error "timeout" ∧
    get_latest_ruby_standalone_version (.ok ⟨true, "html", none⟩)
      = .error "error decoding response body" ∧
    get_latest_ruby_standalone_version (.ok ⟨true, "", some (.obj [])⟩)
      = .error "No tag_name found in release" ∧
    get_latest_ruby_standalone_version (.ok c6resp) = .ok "v9.9.9" := by
  have h := c6_resolver_error_behaviour
  exact ⟨h.1 "timeout", h.2.2.1 ⟨true, "html", none⟩ rfl,
    h.2.2.2.1 ⟨true, "", some (.obj [])⟩ (.obj []) rfl rfl,
    h.2.2.2.2.2 c6resp (.obj [("tag_name", .str "v9.9.9")]) "v9.9.9" rfl rfl⟩

/-! ## Claim C4 -/

/-- C4: invocation resolution order.  A name found in the registry with
installed true runs the recorded binary_path and relays its exit status
verbatim; a name found with installed false yields the error naming the
install command, whatever the execution oracle (no execution is attempted);
a name not in the registry runs the PATH binary pact-name, relaying any
exit status (even nonzero) and producing the not-found error naming the
list command only when the launch itself fails. -/
theorem c4_run_extension_resolution (cfg : Registry)
    (exec : String → List String → Except String Int) (name : String) (args : List String) :
    (∀ c st, Registry.find? cfg name = some c → c.installed = true →
      exec c.binary_path args = .ok st →
      run_extension cfg exec name args = .exitStatus st) ∧
    (∀ c, Registry.find? cfg name = some c → c.installed = false →
      ∀ exec2 : String → List String → Except String Int,
      run_extension cfg exec2 name args =
        .err ("Extension \x27" ++ name ++ "\x27 is not installed. Run \x27pact extension install "
              ++ name ++ "\x27 first.")) ∧
    (∀ st, Registry.find? cfg name = none → exec ("pact-" ++ name) args = .ok st →
      run_extension cfg exec name args = .exitStatus st) ∧
    (∀ e, Registry.find? cfg name = none → exec ("pact-" ++ name) args = .error e →
      run_extension cfg exec name args =
        .err ("Extension \x27" ++ name
              ++ "\x27 not found. Available extensions can be listed with \x27pact extension list\x27.")) := by
  refine ⟨?_, ?_, ?_, ?_⟩
  · intro c st hf hi he
    simp [run_extension, hf, hi, he]
  · intro c hf hi exec2
    simp [run_extension, hf, hi]
  · intro st hf he
    simp [run_extension, hf, he]
  · intro e hf he
    simp [run_extension, hf, he]

/-- A concrete registry for the C4 witness. -/
def cfgW4 : Registry :=
  [("a", ⟨"a", "1", "/bin/a", .External, true⟩),
   ("b", ⟨"b", "1", "/bin/b", .External, false⟩)]

/-- A concrete execution oracle for the C4 witness: /bin/a exits 0, the
PATH binary pact-c exits 3, everything else fails to launch. -/
def execW4 : String → List String → Except String Int :=
  fun bin _ =>
    if bin = "/bin/a" then .ok 0
    else if bin = "pact-c" then .ok 3
    else .error "No such file or directory"

/-- Witness for C4 at concrete inputs exercising all four clauses. -/
theorem c4_run_extension_resolution_witness :
    run_extension cfgW4 execW4 "a" [] = .exitStatus 0 ∧
    run_extension cfgW4 execW4 "b" [] =
      .err ("Extension \x27" ++ "b" ++ "\x27 is not installed. Run \x27pact extension install "
            ++ "b" ++ "\x27 first.") ∧
    run_extension cfgW4 execW4 "c" [] = .exitStatus 3 ∧
    run_extension cfgW4 execW4 "d" [] =
      .err ("Extension \x27" ++ "d"
            ++ "\x27 not found. Available extensions can be listed with \x27pact extension list\x27.") := by
  refine ⟨?_, ?_, ?_, ?_⟩
  · exact (c4_run_extension_resolution cfgW4 execW4 "a" []).1 ⟨"a", "1", "/bin/a", .External, true⟩
      0 (by decide) rfl rfl
  · exact (c4_run_extension_resolution cfgW4 execW4 "b" []).2.1 ⟨"b", "1", "/bin/b", .External, false⟩
      (by decide) rfl execW4
  · exact (c4_run_extension_resolution cfgW4 execW4 "c" []).2.2.1 3 (by decide) rfl
  · exact (c4_run_extension_resolution cfgW4 execW4 "d" []).2.2.2 "No such file or directory"
      (by decide) rfl

/-! ## Claim C5 -/

/-- C5: for a platform pair outside the supported matrix, both install
operations fail with the error naming the pair while having performed no
network or filesystem event at all; and every pair of the matrix satisfies
is_supported. -/
theorem c5_unsupported_platform_fails_before_io (em : ExtensionManager) (env : NetEnv)
    (v? : Option String) (fs : FS) (cfg : Registry) :
    (supported_platforms.contains (em.platform.os, em.platform.arch) = false →
      install_pactflow_ai em env v? fs cfg =
        (.error ("Unsupported platform: " ++ em.platform.os ++ "-" ++ em.platform.arch), []) ∧
      install_ruby_legacy em env v? fs cfg =
        (.error ("Unsupported platform: " ++ em.platform.os ++ "-" ++ em.platform.arch), [])) ∧
    (∀ p ∈ supported_platforms, PlatformInfo.is_supported ⟨p.1, p.2⟩ = true) := by
  constructor
  · intro h
    have hs : em.platform.is_supported = false := h
    constructor
    · simp [install_pactflow_ai, hs]
    · simp [install_ruby_legacy, hs]
  · decide

/-- A manager on a platform outside the matrix. -/
def em_unsup : ExtensionManager := ⟨"/h", ⟨"freebsd", "x86_64"⟩⟩

/-- Witness for C5 at a concrete unsupported platform and one matrix pair. -/
theorem c5_unsupported_platform_fails_before_io_witness :
    install_pactflow_ai em_unsup envW none ⟨[], []⟩ [] =
      (.error ("Unsupported platform: " ++ "freebsd" ++ "-" ++ "x86_64"), []) ∧
    install_ruby_legacy em_unsup envW none ⟨[], []⟩ [] =
      (.error ("Unsupported platform: " ++ "freebsd" ++ "-" ++ "x86_64"), []) ∧
    PlatformInfo.is_supported ⟨"linux", "x86_64"⟩ = true := by
  have h := c5_unsupported_platform_fails_before_io em_unsup envW none ⟨[], []⟩ []
  exact ⟨(h.1 (by decide)).1, (h.1 (by decide)).2, h.2 ("linux", "x86_64") (by decide)⟩

/-! ## Claim C1 -/

/-- Filesystem component of a successful result (empty on error). -/
def resultFs (x : Except String (FS × Registry)) : FS :=
  match x with
  | .ok r => r.1
  | .error _ => ⟨[], []⟩

/-- Path of a tool binary inside the extracted bundle tree. -/
def srcPath1 (n : String) : String := "/h/pact-legacy/bin/" ++ n

/-- An extraction tree holding the subset of the six known tool binaries
selected by the six flags. -/
def c1Files (b1 b2 b3 b4 b5 b6 : Bool) : List String :=
  (if b1 then [srcPath1 "pact-broker"] else []) ++
  (if b2 then [srcPath1 "pactflow"] else []) ++
  (if b3 then [srcPath1 "pact-message"] else []) ++
  (if b4 then [srcPath1 "pact-mock-service"] else []) ++
  (if b5 then [srcPath1 "pact-provider-verifier"] else []) ++
  (if b6 then [srcPath1 "pact-stub-service"] else [])

/-- The filesystem after extracting such a bundle under /h. -/
def c1fs (b1 b2 b3 b4 b5 b6 : Bool) : FS :=
  ⟨c1Files b1 b2 b3 b4 b5 b6, ["/h", "/h/pact-legacy", "/h/pact-legacy/bin"]⟩

/-- The derived record the bridge writes for alias name n. -/
def c1rec (n : String) (inst : Bool) : String × ExtensionConfig :=
  (n, ⟨n, "v9.9.9", "/h/bin/" ++ n, .PactRubyStandalone, inst⟩)

/-- The registry produced by the bridge from an empty prior registry: the
master record plus all six derived records, installed tracking which
source binaries existed. -/
def c1expected (b1 b2 b3 b4 b5 b6 : Bool) : Registry :=
  ("pact-legacy", ⟨"pact-legacy", "v9.9.9", "/h/pact-legacy", .PactRubyStandalone, true⟩) ::
  [c1rec "pact-broker-legacy" b1, c1rec "pactflow-legacy" b2, c1rec "message-legacy" b3,
   c1rec "mock-legacy" b4, c1rec "verifier-legacy" b5, c1rec "stub-legacy" b6]

/-- C1 counterexample: installing from an extraction tree holding only 2 of
the 6 known tool binaries records the absent tool mock-legacy in the
registry (with installed false) — its name is not absent from the registry
as the claim requires. -/
theorem c1_absent_tool_recorded_counterexample :
    Registry.find?
        (resultCfg (create_legacy_symlinks_with_version em0 "v9.9.9"
          (c1fs true true false false false false) []))
        "mock-legacy"
      = some ⟨"mock-legacy", "v9.9.9", "/h/bin/mock-legacy", .PactRubyStandalone, false⟩ ∧
    exceptIsOk (create_legacy_symlinks_with_version em0 "v9.9.9"
        (c1fs true true false false false false) [])
      = true := by
  exact ⟨rfl, rfl⟩

/-- C1 amended: from an extraction tree holding any subset of the 6 known
tool binaries and an empty prior registry, the bridge records one derived
record for every one of the 6 mappings — installed true exactly for tools
whose source binary existed, installed false for the absent ones — plus one
master record: absent tools appear with installed false rather than being
left out of the registry. -/
theorem c1_subset_install_records_all_six (b1 b2 b3 b4 b5 b6 : Bool) :
    resultCfg (create_legacy_symlinks_with_version em0 "v9.9.9"
        (c1fs b1 b2 b3 b4 b5 b6) [])
      = c1expected b1 b2 b3 b4 b5 b6 ∧
    exceptIsOk (create_legacy_symlinks_with_version em0 "v9.9.9"
        (c1fs b1 b2 b3 b4 b5 b6) [])
      = true := by
  cases b1 <;> cases b2 <;> cases b3 <;> cases b4 <;> cases b5 <;> cases b6 <;>
    exact ⟨rfl, rfl⟩

/-! ## Claim C8 -/

/-- Inserting twice under one key keeps only the last record. -/
theorem Registry.insert_insert (cfg : Registry) (k : String) (v w : ExtensionConfig) :
    Registry.insert (Registry.insert cfg k v) k w = Registry.insert cfg k w := by
  induction cfg with
  | nil => simp [Registry.insert]
  | cons hd tl ih =>
    obtain ⟨n, c⟩ := hd
    by_cases h : n = k
    · simp [Registry.insert, h]
    · simp [Registry.insert, h, ih]

/-- Inserting under a key leaves exactly one record under it, provided the
registry was not already corrupted with duplicates. -/
theorem Registry.countKey_insert (cfg : Registry) (k : String) (v : ExtensionConfig)
    (h : Registry.countKey cfg k ≤ 1) :
    Registry.countKey (Registry.insert cfg k v) k = 1 := by
  induction cfg with
  | nil => simp [Registry.countKey, Registry.insert]
  | cons hd tl ih =>
    obtain ⟨n, c⟩ := hd
    by_cases hn : n = k
    · have h0 : Registry.countKey tl k = 0 := by
        have := h
        simp [Registry.countKey, hn] at this
        simpa [Registry.countKey] using this
      have : (tl.filter (fun p => decide (p.1 = k))).length = 0 := h0
      simp [Registry.countKey, Registry.insert, hn, this]
    · have h' : Registry.countKey tl k ≤ 1 := by
        simpa [Registry.countKey, hn] using h
      simpa [Registry.countKey, Registry.insert, hn] using ih h'

set_option maxHeartbeats 4000000 in
/-- C8: reinstalling with the same explicit version is idempotent on the
registry.  For the single-binary family, a second install_pactflow_ai with
the same version yields the same registry, holding exactly one record named
pactflow-ai; for the bundled-legacy family, a second bridge run succeeds
although the alias files created by the first run are already present at
the target paths (they are overwritten, not an error), and the registry
again holds exactly one record per name. -/
theorem c8_reinstall_idempotent (v : String) (fs : FS) (cfg : Registry)
    (b1 b2 b3 b4 b5 b6 : Bool)
    (hc : Registry.countKey cfg "pactflow-ai" ≤ 1) :
    (exceptIsOk (install_pactflow_ai em0 envW (some v) fs cfg).1 = true ∧
     (∀ fs1 cfg1, (install_pactflow_ai em0 envW (some v) fs cfg).1 = .ok (fs1, cfg1) →
       ∀ fs2 cfg2, (install_pactflow_ai em0 envW (some v) fs1 cfg1).1 = .ok (fs2, cfg2) →
         cfg2 = cfg1 ∧ Registry.countKey cfg2 "pactflow-ai" = 1)) ∧
    (exceptIsOk (create_legacy_symlinks_with_version em0 "v9.9.9"
        (resultFs (create_legacy_symlinks_with_version em0 "v9.9.9"
          (c1fs b1 b2 b3 b4 b5 b6) []))
        (resultCfg (create_legacy_symlinks_with_version em0 "v9.9.9"
          (c1fs b1 b2 b3 b4 b5 b6) [])))
      = true ∧
     resultCfg (create_legacy_symlinks_with_version em0 "v9.9.9"
        (resultFs (create_legacy_symlinks_with_version em0 "v9.9.9"
          (c1fs b1 b2 b3 b4 b5 b6) []))
        (resultCfg (create_legacy_symlinks_with_version em0 "v9.9.9"
          (c1fs b1 b2 b3 b4 b5 b6) [])))
       = resultCfg (create_legacy_symlinks_with_version em0 "v9.9.9"
          (c1fs b1 b2 b3 b4 b5 b6) []) ∧
     (resultFs (create_legacy_symlinks_with_version em0 "v9.9.9"
        (c1fs b1 b2 b3 b4 b5 b6) [])).pathExists "/h/bin/pact-broker-legacy" = b1) := by
  have hsup : em0.platform.is_supported = true := by decide
  constructor
  · constructor
    · simp [install_pactflow_ai, hsup, envW, exceptIsOk]
    · intro fs1 cfg1 h1 fs2 cfg2 h2
      simp [install_pactflow_ai, hsup, envW] at h1 h2
      obtain ⟨hfs1, hcfg1⟩ := h1
      obtain ⟨hfs2, hcfg2⟩ := h2
      subst hcfg1
      rw [Registry.insert_insert] at hcfg2
      exact ⟨hcfg2.symm, hcfg2 ▸ Registry.countKey_insert cfg _ _ hc⟩
  · cases b1 <;> cases b2 <;> cases b3 <;> cases b4 <;> cases b5 <;> cases b6 <;>
      exact ⟨rfl, rfl, rfl⟩

/-- Witness for C8 at concrete inputs. -/
theorem c8_reinstall_idempotent_witness :
    Registry.countKey ([] : Registry) "pactflow-ai" ≤ 1 ∧
    exceptIsOk (install_pactflow_ai em0 envW (some "1.0.0") ⟨[], []⟩ []).1 = true ∧
    (resultFs (create_legacy_symlinks_with_version em0 "v9.9.9"
        (c1fs true true true true true true) [])).pathExists "/h/bin/pact-broker-legacy"
      = true := by
  have h := c8_reinstall_idempotent "1.0.0" ⟨[], []⟩ [] true true true true true true
    (by decide)
  exact ⟨by decide, h.1.1, h.2.2.2⟩

/-! ## Claim C3: registry and filesystem lemmas -/

/-- A found record is a member. -/
theorem Registry.find?_mem (cfg : Registry) (n : String) (c : ExtensionConfig)
    (h : Registry.find? cfg n = some c) : (n, c) ∈ cfg := by
  induction cfg with
  | nil => simp [Registry.find?] at h
  | cons hd tl ih =>
    obtain ⟨q, d⟩ := hd
    by_cases hq : q = n
    · subst hq
      simp [Registry.find?] at h
      simp [h]
    · simp [Registry.find?, hq] at h
      simp [ih h]

/-- find? is none exactly when the key is absent. -/
theorem Registry.find?_eq_none_iff (cfg : Registry) (n : String) :
    Registry.find? cfg n = none ↔ n ∉ cfg.map Prod.fst := by
  induction cfg with
  | nil => simp [Registry.find?]
  | cons hd tl ih =>
    obtain ⟨q, d⟩ := hd
    by_cases hq : q = n
    · subst hq
      simp [Registry.find?]
    · simp [Registry.find?, hq, ih, Ne.symm hq]

/-- Membership after erasing a key. -/
theorem Registry.mem_eraseKey (p : String × ExtensionConfig) (cfg : Registry) (k : String) :
    p ∈ Registry.eraseKey cfg k ↔ p ∈ cfg ∧ p.1 ≠ k := by
  simp [Registry.eraseKey, List.mem_filter]

/-- Erasing another key does not change a lookup. -/
theorem Registry.find?_eraseKey_other (cfg : Registry) (k n : String) (h : n ≠ k) :
    Registry.find? (Registry.eraseKey cfg k) n = Registry.find? cfg n := by
  induction cfg with
  | nil => simp [Registry.eraseKey]
  | cons hd tl ih =>
    obtain ⟨q, d⟩ := hd
    by_cases hq : q = k
    · subst hq
      have hkn : ¬ (q = n) := fun hh => h hh.symm
      simp_all [Registry.eraseKey, Registry.find?]
    · by_cases hqn : q = n
      · subst hqn
        simp [Registry.eraseKey, Registry.find?, hq]
      · simp_all [Registry.eraseKey, Registry.find?, hq, hqn]

/-- Inserting a record makes it the lookup result. -/
theorem Registry.find?_insert_self (cfg : Registry) (k : String) (v : ExtensionConfig) :
    Registry.find? (Registry.insert cfg k v) k = some v := by
  induction cfg with
  | nil => simp [Registry.insert, Registry.find?]
  | cons hd tl ih =>
    obtain ⟨q, d⟩ := hd
    by_cases hq : q = k
    · simp [Registry.insert, Registry.find?, hq]
    · simp [Registry.insert, Registry.find?, hq, ih]

/-- Inserting under another key does not change a lookup. -/
theorem Registry.find?_insert_other (cfg : Registry) (k n : String) (v : ExtensionConfig)
    (h : n ≠ k) : Registry.find? (Registry.insert cfg k v) n = Registry.find? cfg n := by
  induction cfg with
  | nil => simp [Registry.insert, Registry.find?, Ne.symm h]
  | cons hd tl ih =>
    obtain ⟨q, d⟩ := hd
    by_cases hq : q = k
    · subst hq
      have hkn : ¬ (q = n) := fun hh => h hh.symm
      simp [Registry.insert, Registry.find?, hkn]
    · by_cases hqn : q = n
      · subst hqn
        simp [Registry.insert, Registry.find?, hq]
      · simp [Registry.insert, Registry.find?, hq, hqn, ih]

/-- Membership after folding eraseKey over a list of keys. -/
theorem Registry.mem_eraseFold (L : List String) (cfg : Registry)
    (p : String × ExtensionConfig) :
    p ∈ L.foldl Registry.eraseKey cfg ↔ p ∈ cfg ∧ p.1 ∉ L := by
  induction L generalizing cfg with
  | nil => simp
  | cons t L' ih =>
    simp only [List.foldl_cons, ih, Registry.mem_eraseKey, List.mem_cons]
    constructor
    · rintro ⟨⟨hp, hne⟩, hnl⟩
      exact ⟨hp, fun hor => hor.elim (fun h => hne h) hnl⟩
    · rintro ⟨hp, hall⟩
      exact ⟨⟨hp, fun h => hall (Or.inl h)⟩, fun h => hall (Or.inr h)⟩

/-- Bool contains in terms of membership, for Strings. -/
theorem contains_eq_mem_str (l : List String) (a : String) :
    l.contains a = decide (a ∈ l) := by
  induction l with
  | nil => simp
  | cons hd tl ih =>
    by_cases h : a = hd <;> simp [List.contains_cons, h, ih]

/-- Filtering never introduces a list element. -/
theorem contains_filter_false (l : List String) (f : String → Bool) (a : String)
    (h : l.contains a = false) : (l.filter f).contains a = false := by
  simp only [contains_eq_mem_str, decide_eq_false_iff_not] at h ⊢
  exact fun hm => h (List.mem_of_mem_filter hm)

/-- Filtering a value out makes contains false. -/
theorem contains_filter_ne (l : List String) (p : String) :
    (l.filter (fun q => q ≠ p)).contains p = false := by
  simp [contains_eq_mem_str, List.mem_filter]

/-- One shape of the removal step, as an explicit case tree. -/
theorem removeToolsStep_shape (fs : FS) (cfg : Registry) (tool : String) :
    removeToolsStep (fs, cfg) tool =
      match Registry.find? cfg tool with
      | some tc =>
        if fs.pathExists tc.binary_path then
          match fs.removeFile tc.binary_path with
          | .ok fs1 => .ok (fs1, Registry.eraseKey cfg tool)
          | .error e => .error e
        else .ok (fs, Registry.eraseKey cfg tool)
      | none => .ok (fs, Registry.eraseKey cfg tool) := by
  unfold removeToolsStep
  cases Registry.find? cfg tool with
  | none => rfl
  | some tc =>
    by_cases hp : fs.pathExists tc.binary_path
    · simp only [hp, if_true]
      cases fs.removeFile tc.binary_path <;> rfl
    · simp only [hp, if_false]
      rfl

/-- The combined specification of the legacy-tool removal fold: it
succeeds, erases exactly the listed keys from the registry, leaves
directories untouched, only removes files, and in particular removes the
recorded binary of every listed tool. -/
theorem remFold_spec (L : List String) (fs : FS) (cfg : Registry)
    (hL : ∀ t ∈ L, t ≠ "pact-legacy")
    (hdirs : ∀ p ∈ cfg, p.1 ≠ "pact-legacy" → fs.dirs.contains p.2.binary_path = false) :
    ∃ fs', L.foldlM removeToolsStep (fs, cfg) = .ok (fs', L.foldl Registry.eraseKey cfg) ∧
      fs'.dirs = fs.dirs ∧
      (∀ p, fs'.files.contains p = true → fs.files.contains p = true) ∧
      (∀ n c, n ∈ L → Registry.find? cfg n = some c →
        fs'.files.contains c.binary_path = false) := by
  induction L generalizing fs cfg with
  | nil =>
    refine ⟨fs, ?_, rfl, fun p hp => hp, ?_⟩
    · simp [List.foldlM_nil, pure, Except.pure]
    · intro n c hn
      simp at hn
  | cons t L' ih =>
    have hmaster : t ≠ "pact-legacy" := hL t (List.mem_cons_self t L')
    -- analyse the head step
    obtain ⟨fs1, hstep, hdir1, hmono1, hrem1⟩ :
        ∃ fs1, removeToolsStep (fs, cfg) t = .ok (fs1, Registry.eraseKey cfg t) ∧
          fs1.dirs = fs.dirs ∧
          (∀ p, fs1.files.contains p = true → fs.files.contains p = true) ∧
          (∀ c, Registry.find? cfg t = some c → fs1.files.contains c.binary_path = false) := by
      rw [removeToolsStep_shape]
      cases hf : Registry.find? cfg t with
      | none =>
        refine ⟨fs, rfl, rfl, fun p hp => hp, ?_⟩
        intro c hc
        simp at hc
      | some tc =>
        have hmem := Registry.find?_mem cfg t tc hf
        have hd : fs.dirs.contains tc.binary_path = false := hdirs (t, tc) hmem hmaster
        have hdm : tc.binary_path ∉ fs.dirs := by
          simpa [contains_eq_mem_str] using hd
        by_cases hcm : tc.binary_path ∈ fs.files
        · have hp : fs.pathExists tc.binary_path = true := by
            simp [FS.pathExists, contains_eq_mem_str, hcm]
          refine ⟨{ fs with files := fs.files.filter (fun q => q ≠ tc.binary_path) }, ?_, rfl, ?_, ?_⟩
          · simp [hp, FS.removeFile, contains_eq_mem_str, hcm]
          · intro p hp2
            simp only [contains_eq_mem_str, decide_eq_true_eq] at hp2 ⊢
            exact List.mem_of_mem_filter hp2
          · intro c hcf
            cases hcf
            exact contains_filter_ne fs.files tc.binary_path
        · have hcb : fs.files.contains tc.binary_path = false := by
            simpa [contains_eq_mem_str] using hcm
          have hp : fs.pathExists tc.binary_path = false := by
            simp [FS.pathExists, contains_eq_mem_str, hcm, hdm]
          refine ⟨fs, ?_, rfl, fun p hp2 => hp2, ?_⟩
          · simp [hp]
          · intro c hcf
            cases hcf
            exact hcb
    -- the tail fold from the intermediate state
    have hL' : ∀ u ∈ L', u ≠ "pact-legacy" := fun u hu => hL u (List.mem_cons_of_mem t hu)
    have hdirs' : ∀ p ∈ Registry.eraseKey cfg t, p.1 ≠ "pact-legacy" →
        fs1.dirs.contains p.2.binary_path = false := by
      intro p hp hpn
      rw [hdir1]
      exact hdirs p ((Registry.mem_eraseKey p cfg t).mp hp).1 hpn
    obtain ⟨fs', hfold', hdir', hmono', hrem'⟩ := ih fs1 (Registry.eraseKey cfg t) hL' hdirs'
    refine ⟨fs', ?_, ?_, ?_, ?_⟩
    · rw [List.foldlM_cons, hstep]
      simpa [Bind.bind, Except.bind] using hfold'
    · rw [hdir', hdir1]
    · exact fun p hp => hmono1 p (hmono' p hp)
    · intro n c hn hfc
      rcases List.mem_cons.mp hn with hnt | hnL
    -- head tool: its binary was removed by the head step and never restored
      · subst hnt
        have h1 : fs1.files.contains c.binary_path = false := hrem1 c hfc
        cases hx : fs'.files.contains c.binary_path
        · rfl
        · rw [hmono' c.binary_path hx] at h1
          cases h1
      · by_cases hnt : n = t
        · subst hnt
          have h1 : fs1.files.contains c.binary_path = false := hrem1 c hfc
          cases hx : fs'.files.contains c.binary_path
          · rfl
          · rw [hmono' c.binary_path hx] at h1
            cases h1
        · have hfc' : Registry.find? (Registry.eraseKey cfg t) n = some c := by
            rw [Registry.find?_eraseKey_other cfg t n hnt]
            exact hfc
          exact hrem' n c hnL hfc'

/-- Erasing a key removes it from the lookup. -/
theorem Registry.find?_eraseKey_self (cfg : Registry) (k : String) :
    Registry.find? (Registry.eraseKey cfg k) k = none := by
  rw [Registry.find?_eq_none_iff]
  intro hmem
  simp only [Registry.eraseKey, List.mem_map, List.mem_filter] at hmem
  obtain ⟨p, ⟨_, hne⟩, hfst⟩ := hmem
  simp only [decide_eq_true_eq] at hne
  exact hne hfst

/-- Builtin merging never touches names outside the merged list. -/
theorem find?_listFold_not_mem (em : ExtensionManager) (fs : FS)
    (B : List (String × ExtensionType)) (acc : Registry) (n : String)
    (h : n ∉ B.map Prod.fst) :
    Registry.find? (B.foldl (listStep em fs) acc) n = Registry.find? acc n := by
  induction B generalizing acc with
  | nil => rfl
  | cons e B' ih =>
    simp only [List.map_cons, List.mem_cons, not_or] at h
    obtain ⟨hne, hrest⟩ := h
    rw [List.foldl_cons]
    rw [ih (listStep em fs acc e) hrest]
    unfold listStep
    by_cases hck : Registry.containsKey acc e.1
    · simp [hck]
    · simp [hck, Registry.find?_insert_other acc e.1 n _ (fun hh => hne hh)]

/-- Builtin merging synthesizes the conventional record for a listed name
that the registry does not hold. -/
theorem find?_listFold_hit (em : ExtensionManager) (fs : FS)
    (B : List (String × ExtensionType)) (acc : Registry) (n : String) (t : ExtensionType)
    (hmem : (n, t) ∈ B) (hnd : (B.map Prod.fst).Nodup)
    (hacc : Registry.find? acc n = none) :
    Registry.find? (B.foldl (listStep em fs) acc) n
      = some ⟨n, "latest", convPath em n, t, fs.pathExists (convPath em n)⟩ := by
  induction B generalizing acc with
  | nil => simp at hmem
  | cons e B' ih =>
    rw [List.map_cons, List.nodup_cons] at hnd
    obtain ⟨hhead, htail⟩ := hnd
    rw [List.foldl_cons]
    rcases List.mem_cons.mp hmem with heq | hmem'
    · subst heq
      have hstep : listStep em fs acc (n, t)
          = Registry.insert acc n ⟨n, "latest", convPath em n, t, fs.pathExists (convPath em n)⟩ := by
        unfold listStep
        simp [Registry.containsKey, hacc]
      rw [hstep, find?_listFold_not_mem em fs B' _ n hhead]
      exact Registry.find?_insert_self acc n _
    · have hne : e.1 ≠ n := by
        intro hh
        exact hhead (hh ▸ (List.mem_map.mpr ⟨(n, t), hmem', rfl⟩))
      have hacc' : Registry.find? (listStep em fs acc e) n = none := by
        unfold listStep
        by_cases hck : Registry.containsKey acc e.1
        · simpa [hck] using hacc
        · simpa [hck, Registry.find?_insert_other acc e.1 n _ (fun hh => hne hh.symm)] using hacc
      exact ih (listStep em fs acc e) hmem' htail hacc'

/-- Every legacy tool name is a bundled-legacy record other than the master. -/
theorem legacyToolNames_ne_master (cfg : Registry) :
    ∀ t ∈ legacyToolNames cfg, t ≠ "pact-legacy" := by
  intro t ht
  obtain ⟨p, hp, hfst⟩ := List.mem_map.mp ht
  have h2 := (List.mem_filter.mp hp).2
  simp only [Bool.and_eq_true, bne_iff_ne] at h2
  exact hfst ▸ h2.2

set_option maxHeartbeats 1000000 in
/-- C3: uninstalling the master bundle record removes every bundled-legacy
record from the registry (and the master itself), removes each derived
record's backing alias file and the master's extraction directory, persists
once, and afterwards listing synthesizes each derived builtin name with
installed false. -/
theorem c3_uninstall_master_removes_bundle
    (em : ExtensionManager) (fs : FS) (cfg : Registry)
    (hdirs : ∀ p ∈ cfg, p.1 ≠ "pact-legacy" → fs.dirs.contains p.2.binary_path = false)
    (hrd : fs.files.contains (em.extensions_home ++ "/pact-legacy") = false)
    (hconv : ∀ m ∈ legacy_mappings,
      (Registry.find? cfg m.2).any (fun c =>
        c.binary_path == convPath em m.2
          && c.extension_type == ExtensionType.PactRubyStandalone) = true) :
    ∃ fs' cfg', uninstall_extension em fs cfg "pact-legacy" = .ok (fs', cfg', 1) ∧
      (∀ p ∈ cfg', p.2.extension_type ≠ ExtensionType.PactRubyStandalone) ∧
      Registry.find? cfg' "pact-legacy" = none ∧
      fs'.pathExists (em.extensions_home ++ "/pact-legacy") = false ∧
      (∀ m ∈ legacy_mappings,
        fs'.pathExists (convPath em m.2) = false ∧
        Registry.find? (list_extensions em fs' cfg') m.2
          = some ⟨m.2, "latest", convPath em m.2, ExtensionType.PactRubyStandalone, false⟩) := by
  have hL := legacyToolNames_ne_master cfg
  obtain ⟨fs1, hfold, hdir1, hmono1, hrem1⟩ :=
    remFold_spec (legacyToolNames cfg) fs cfg hL hdirs
  -- names for the two registries the uninstall produces
  have hnotruby : ∀ p ∈ Registry.eraseKey
      ((legacyToolNames cfg).foldl Registry.eraseKey cfg) "pact-legacy",
      p.2.extension_type ≠ ExtensionType.PactRubyStandalone := by
    intro p hp hruby
    have h1 := (Registry.mem_eraseKey p _ "pact-legacy").mp hp
    have h2 := (Registry.mem_eraseFold (legacyToolNames cfg) cfg p).mp h1.1
    apply h2.2
    refine List.mem_map.mpr ⟨p, List.mem_filter.mpr ⟨h2.1, ?_⟩, rfl⟩
    simp [hruby, bne_iff_ne, h1.2]
  have hmasterNone : Registry.find? (Registry.eraseKey
      ((legacyToolNames cfg).foldl Registry.eraseKey cfg) "pact-legacy") "pact-legacy" = none :=
    Registry.find?_eraseKey_self _ "pact-legacy"
  have hmapmaster : ∀ m ∈ legacy_mappings, m.2 ≠ "pact-legacy" := by decide
  -- per-mapping facts about the state after the removal fold
  have hpermap : ∀ m ∈ legacy_mappings,
      fs1.files.contains (convPath em m.2) = false ∧
      fs.dirs.contains (convPath em m.2) = false ∧
      Registry.find? (Registry.eraseKey
        ((legacyToolNames cfg).foldl Registry.eraseKey cfg) "pact-legacy") m.2 = none := by
    intro m hm
    have hm2 : m.2 ≠ "pact-legacy" := hmapmaster m hm
    have hcm := hconv m hm
    cases hfc : Registry.find? cfg m.2 with
    | none => rw [hfc] at hcm; simp [Option.any] at hcm
    | some c =>
      rw [hfc] at hcm
      simp only [Option.any, Bool.and_eq_true, beq_iff_eq] at hcm
      obtain ⟨hpath, htype⟩ := hcm
      have hmemc := Registry.find?_mem cfg m.2 c hfc
      have hinL : m.2 ∈ legacyToolNames cfg := by
        refine List.mem_map.mpr ⟨(m.2, c), List.mem_filter.mpr ⟨hmemc, ?_⟩, rfl⟩
        simp [htype, bne_iff_ne, hm2]
      have hfiles := hrem1 m.2 c hinL hfc
      rw [hpath] at hfiles
      have hdirsm := hdirs (m.2, c) hmemc hm2
      rw [hpath] at hdirsm
      refine ⟨hfiles, hdirsm, ?_⟩
      rw [Registry.find?_eraseKey_other _ "pact-legacy" m.2 hm2]
      rw [Registry.find?_eq_none_iff]
      intro hmemk
      obtain ⟨q, hq, hqf⟩ := List.mem_map.mp hmemk
      have h2 := (Registry.mem_eraseFold (legacyToolNames cfg) cfg q).mp hq
      exact h2.2 (hqf ▸ hinL)
  have hbuiltin : ∀ m ∈ legacy_mappings,
      (m.2, ExtensionType.PactRubyStandalone) ∈ builtin_extensions := by decide
  have hbnd : (builtin_extensions.map Prod.fst).Nodup := by decide
  by_cases hpe : fs1.pathExists (em.extensions_home ++ "/pact-legacy") = true
  · -- the extraction directory exists and gets removed
    have hf1 : fs1.files.contains (em.extensions_home ++ "/pact-legacy") = false := by
      cases hx : fs1.files.contains (em.extensions_home ++ "/pact-legacy")
      · rfl
      · rw [hmono1 _ hx] at hrd
        exact hrd
    have hdirc : fs1.dirs.contains (em.extensions_home ++ "/pact-legacy") = true := by
      rcases (by simpa [FS.pathExists, Bool.or_eq_true] using hpe :
          fs1.files.contains (em.extensions_home ++ "/pact-legacy") = true ∨
          fs1.dirs.contains (em.extensions_home ++ "/pact-legacy") = true) with h | h
      · rw [hf1] at h
        exact absurd h (by simp)
      · exact h
    have hdircm : (em.extensions_home ++ "/pact-legacy") ∈ fs1.dirs := by
      simpa [contains_eq_mem_str] using hdirc
    have hrda : fs1.remove_dir_all (em.extensions_home ++ "/pact-legacy")
        = .ok ⟨fs1.files.filter (fun q => ¬ underDir (em.extensions_home ++ "/pact-legacy") q),
               fs1.dirs.filter (fun q =>
                 ¬ (q = (em.extensions_home ++ "/pact-legacy")
                    ∨ underDir (em.extensions_home ++ "/pact-legacy") q))⟩ := by
      simp [FS.remove_dir_all, contains_eq_mem_str, hdircm]
    refine ⟨⟨fs1.files.filter (fun q => ¬ underDir (em.extensions_home ++ "/pact-legacy") q),
             fs1.dirs.filter (fun q =>
               ¬ (q = (em.extensions_home ++ "/pact-legacy")
                  ∨ underDir (em.extensions_home ++ "/pact-legacy") q))⟩,
            Registry.eraseKey ((legacyToolNames cfg).foldl Registry.eraseKey cfg) "pact-legacy",
            ?_, hnotruby, hmasterNone, ?_, ?_⟩
    · unfold uninstall_extension
      simp [hfold, hpe, hrda, Bind.bind, Except.bind, pure, Except.pure]
    · have hf1m : (em.extensions_home ++ "/pact-legacy") ∉ fs1.files := by
        simpa [contains_eq_mem_str] using hf1
      simp [FS.pathExists, contains_eq_mem_str, List.mem_filter, hf1m]
    · intro m hm
      obtain ⟨hfm, hdm, hnm⟩ := hpermap m hm
      have hdm1 : fs1.dirs.contains (convPath em m.2) = false := by
        rw [hdir1]
        exact hdm
      have hfmm : convPath em m.2 ∉ fs1.files := by
        simpa [contains_eq_mem_str] using hfm
      have hdmm : convPath em m.2 ∉ fs1.dirs := by
        simpa [contains_eq_mem_str] using hdm1
      have hpx : FS.pathExists
          ⟨fs1.files.filter (fun q => ¬ underDir (em.extensions_home ++ "/pact-legacy") q),
           fs1.dirs.filter (fun q =>
             ¬ (q = (em.extensions_home ++ "/pact-legacy")
                ∨ underDir (em.extensions_home ++ "/pact-legacy") q))⟩
          (convPath em m.2) = false := by
        simp [FS.pathExists, contains_eq_mem_str, List.mem_filter, hfmm, hdmm]
      refine ⟨hpx, ?_⟩
      have hhit := find?_listFold_hit em
        ⟨fs1.files.filter (fun q => ¬ underDir (em.extensions_home ++ "/pact-legacy") q),
         fs1.dirs.filter (fun q =>
           ¬ (q = (em.extensions_home ++ "/pact-legacy")
              ∨ underDir (em.extensions_home ++ "/pact-legacy") q))⟩
        builtin_extensions _ m.2 ExtensionType.PactRubyStandalone
        (hbuiltin m hm) hbnd hnm
      rw [hpx] at hhit
      exact hhit
  · -- the extraction directory is already absent
    have hpe' : fs1.pathExists (em.extensions_home ++ "/pact-legacy") = false := by
      cases hx : fs1.pathExists (em.extensions_home ++ "/pact-legacy")
      · rfl
      · exact absurd hx hpe
    refine ⟨fs1,
            Registry.eraseKey ((legacyToolNames cfg).foldl Registry.eraseKey cfg) "pact-legacy",
            ?_, hnotruby, hmasterNone, hpe', ?_⟩
    · unfold uninstall_extension
      simp [hfold, hpe', Bind.bind, Except.bind, pure, Except.pure]
    · intro m hm
      obtain ⟨hfm, hdm, hnm⟩ := hpermap m hm
      have hdm1 : fs1.dirs.contains (convPath em m.2) = false := by
        rw [hdir1]
        exact hdm
      have hfmm : convPath em m.2 ∉ fs1.files := by
        simpa [contains_eq_mem_str] using hfm
      have hdmm : convPath em m.2 ∉ fs1.dirs := by
        simpa [contains_eq_mem_str] using hdm1
      have hpx : fs1.pathExists (convPath em m.2) = false := by
        simp [FS.pathExists, contains_eq_mem_str, hfmm, hdmm]
      refine ⟨hpx, ?_⟩
      have hhit := find?_listFold_hit em fs1 builtin_extensions _ m.2
        ExtensionType.PactRubyStandalone (hbuiltin m hm) hbnd hnm
      rw [hpx] at hhit
      exact hhit

/-- A concrete installed-bundle filesystem for the C3 witness. -/
def fsW3 : FS :=
  ⟨["/h/bin/pact-broker-legacy", "/h/bin/pactflow-legacy", "/h/bin/message-legacy",
    "/h/bin/mock-legacy", "/h/bin/verifier-legacy", "/h/bin/stub-legacy"],
   ["/h", "/h/bin", "/h/pact-legacy", "/h/pact-legacy/bin"]⟩

/-- The matching concrete registry for the C3 witness. -/
def cfgW3 : Registry :=
  [("pact-legacy", ⟨"pact-legacy", "v2.4.1", "/h/pact-legacy", .PactRubyStandalone, true⟩),
   ("pact-broker-legacy",
    ⟨"pact-broker-legacy", "v2.4.1", "/h/bin/pact-broker-legacy", .PactRubyStandalone, true⟩),
   ("pactflow-legacy",
    ⟨"pactflow-legacy", "v2.4.1", "/h/bin/pactflow-legacy", .PactRubyStandalone, true⟩),
   ("message-legacy",
    ⟨"message-legacy", "v2.4.1", "/h/bin/message-legacy", .PactRubyStandalone, true⟩),
   ("mock-legacy",
    ⟨"mock-legacy", "v2.4.1", "/h/bin/mock-legacy", .PactRubyStandalone, true⟩),
   ("verifier-legacy",
    ⟨"verifier-legacy", "v2.4.1", "/h/bin/verifier-legacy", .PactRubyStandalone, true⟩),
   ("stub-legacy",
    ⟨"stub-legacy", "v2.4.1", "/h/bin/stub-legacy", .PactRubyStandalone, true⟩)]

/-- Witness for C3 at a concrete freshly installed bundle state. -/
theorem c3_uninstall_master_removes_bundle_witness :
    ∃ fs' cfg', uninstall_extension em0 fsW3 cfgW3 "pact-legacy" = .ok (fs', cfg', 1) ∧
      (∀ p ∈ cfg', p.2.extension_type ≠ ExtensionType.PactRubyStandalone) ∧
      Registry.find? cfg' "pact-legacy" = none ∧
      fs'.pathExists (em0.extensions_home ++ "/pact-legacy") = false ∧
      (∀ m ∈ legacy_mappings,
        fs'.pathExists (convPath em0 m.2) = false ∧
        Registry.find? (list_extensions em0 fs' cfg') m.2
          = some ⟨m.2, "latest", convPath em0 m.2, ExtensionType.PactRubyStandalone, false⟩) :=
  c3_uninstall_master_removes_bundle em0 fsW3 cfgW3 (by decide) (by decide) (by decide)

/-! ## Claim C9 -/

/-- A registry holding an installed pactflow-ai record. -/
def cfg9 : Registry :=
  [("pactflow-ai", ⟨"pactflow-ai", "1.0.0", "/h/bin/pactflow-ai", .PactflowAi, true⟩)]

/-- An execution oracle on which no binary launches. -/
def exec9 : String → List String → Except String Int :=
  fun _ _ => .error "No such file or directory"

/-- An empty filesystem. -/
def fs9 : FS := ⟨[], []⟩

/-- A stand-in for the known pactflow command set. -/
def known9 : List String := ["publish-provider-contract"]

/-- C9 counterexample: with pactflow-ai recorded installed but its binary
not launchable, the nested token ai is treated as an extension invocation
(the router enters the extension branch and reports an extension error)
although the Invoker's resolution of pactflow-ai fails — and the failure
does not fall through to displaying top-level help. -/
theorem c9_router_iff_counterexample :
    is_pactflow_extension em0 fs9 cfg9 "ai" = true ∧
    run_extension cfg9 exec9 "pactflow-ai" [] = .err "No such file or directory" ∧
    route_pactflow em0 fs9 cfg9 exec9 known9 "ai" []
      = .extensionError "No such file or directory" ∧
    route_pactflow em0 fs9 cfg9 exec9 known9 "ai" [] ≠ .topLevelHelp := by
  refine ⟨by decide, by decide, by decide, by decide⟩

/-- C9 amended: the top-level router relays the Invoker's exit status when
resolution succeeds and displays top-level help with a nonzero exit exactly
when the Invoker errors; the nested pactflow router treats an unknown token
as an extension iff list-based discovery reports an installed
pactflow-token record — when it does and the invocation then fails, an
extension error is reported (not top-level help), and when discovery says
no, control falls through to the regular pactflow handler. -/
theorem c9_router_behaviour (em : ExtensionManager) (fs : FS) (cfg : Registry)
    (exec : String → List String → Except String Int) (known : List String)
    (tok : String) (args : List String) :
    (∀ c, run_extension cfg exec tok args = .exitStatus c →
      route_external cfg exec tok args = .relayExit c) ∧
    (∀ e, run_extension cfg exec tok args = .err e →
      route_external cfg exec tok args = .topLevelHelp) ∧
    (known.contains tok = false → is_pactflow_extension em fs cfg tok = true →
      (∀ c, run_extension cfg exec ("pactflow-" ++ tok) args = .exitStatus c →
        route_pactflow em fs cfg exec known tok args = .relayExit c) ∧
      (∀ e, run_extension cfg exec ("pactflow-" ++ tok) args = .err e →
        route_pactflow em fs cfg exec known tok args = .extensionError e)) ∧
    (known.contains tok = false → is_pactflow_extension em fs cfg tok = false →
      route_pactflow em fs cfg exec known tok args = .regularPactflow) := by
  refine ⟨?_, ?_, ?_, ?_⟩
  · intro c h
    simp [route_external, h]
  · intro e h
    simp [route_external, h]
  · intro hk hext
    have hk' : tok ∉ known := by
      simpa [contains_eq_mem_str] using hk
    constructor
    · intro c h
      simp [route_pactflow, hk', hext, h]
    · intro e h
      simp [route_pactflow, hk', hext, h]
  · intro hk hext
    have hk' : tok ∉ known := by
      simpa [contains_eq_mem_str] using hk
    simp [route_pactflow, hk', hext]

/-- Witness for C9 amended at concrete inputs exercising every clause. -/
theorem c9_router_behaviour_witness :
    route_external cfg9 exec9 "nope" [] = .topLevelHelp ∧
    route_pactflow em0 fs9 cfg9 exec9 known9 "ai" []
      = .extensionError "No such file or directory" ∧
    route_pactflow em0 fs9 cfg9 exec9 known9 "zzz" [] = .regularPactflow ∧
    route_external cfgW4 execW4 "a" [] = .relayExit 0 := by
  refine ⟨?_, ?_, ?_, ?_⟩
  · exact (c9_router_behaviour em0 fs9 cfg9 exec9 known9 "nope" []).2.1
      ("Extension \x27" ++ "nope"
        ++ "\x27 not found. Available extensions can be listed with \x27pact extension list\x27.")
      (by decide)
  · exact ((c9_router_behaviour em0 fs9 cfg9 exec9 known9 "ai" []).2.2.1
      (by decide) (by decide)).2 "No such file or directory" (by decide)
  · exact (c9_router_behaviour em0 fs9 cfg9 exec9 known9 "zzz" []).2.2.2
      (by decide) (by decide)
  · exact (c9_router_behaviour em0 fs9 cfgW4 execW4 known9 "a" []).1 0 (by decide)

end PactCli
